import Mathlib

/-!
Verification of the OT (operational transformation) synchronization core:
the Client protocol state machine (src/lib/client.ts), the Server
coordinator (src/lib/server.ts), and the UndoManager / Range / Selection
layer.  The TextOperation algebra itself (text-operation.ts) is not part
of the sources; every component below is therefore parametric in the
operation type `Op` and in the algebra functions (`transform`, `compose`,
`apply`, `isNoop`) it calls, exactly as the TypeScript modules are
parametric in the imported `TextOperation` class.

JavaScript mutation is embedded by explicit state passing: a method that
mutates `this` becomes a function returning the new object, and a method
that can throw additionally returns the error, together with the object
as it stands at the moment of the throw (mutations performed before the
throw persist, exactly as in JavaScript).  Calls to the abstract embedder
callbacks `sendOperation` / `applyOperation` are recorded as an emitted
list of `Effect`s.
-/

namespace OT

/-- Embedder callbacks invoked by the client during a transition:
`send revision op` stands for `client.sendOperation(revision, op)` and
`apply op` for `client.applyOperation(op)`. -/
inductive Effect (Op : Type) where
  | send (revision : Int) (operation : Op)
  | apply (operation : Op)
deriving DecidableEq

/-- The three client states of src/lib/client.ts: `SynchronizedState`,
`AwaitingConfirm (outstanding)`, and the buffering state, whose class is
declared `AwaitingConfirmWithBuffer` (line 98); the spec and the class
doc comment call it the AwaitingWithBuffer state.  No class named
`AwaitingWithBuffer` is declared anywhere in the module: the construction
at line 132 references an undeclared identifier (see
`Client.applyServer`). -/
inductive ClientState (Op : Type) where
  | synchronized
  | awaitingConfirm (outstanding : Op)
  | awaitingWithBuffer (outstanding : Op) (buffer : Op)
deriving DecidableEq

/-- The `Client` object of src/lib/client.ts: a revision counter plus the
current state object. -/
structure Client (Op : Type) where
  revision : Int
  state : ClientState Op
deriving DecidableEq

/-- Client.applyClient (src/lib/client.ts line 171): dispatches on the
current state.  `comp` is `TextOperation.compose` as a curried function
(`comp a b` is `a.compose(b)`). -/
def Client.applyClient (comp : Op → Op → Op) (c : Client Op) (operation : Op) :
    Client Op × List (Effect Op) :=
  match c.state with
  | .synchronized =>
      ({c with state := .awaitingConfirm operation}, [.send c.revision operation])
  | .awaitingConfirm o =>
      ({c with state := .awaitingWithBuffer o operation}, [])
  | .awaitingWithBuffer o b =>
      ({c with state := .awaitingWithBuffer o (comp b operation)}, [])

/-- Client.applyServer (src/lib/client.ts line 178): increments `revision`,
then dispatches to the state object.  `T` is `TextOperation.transform`
(`T a b = (pair[0], pair[1])`).  In the buffer state the dispatch
computes pair1 and pair2 and calls `client.applyOperation(pair2[1])`
(line 131), but line 132 then evaluates
`new AwaitingWithBuffer(pair1[0], pair2[0])` — an identifier that is
never declared in the module (the class is `AwaitingConfirmWithBuffer`) —
and throws a ReferenceError; `setState` is never reached, so the client
keeps its previous state alongside the already incremented revision and
the already emitted apply effect. -/
def Client.applyServer (T : Op → Op → Op × Op) (c : Client Op) (operation : Op) :
    Client Op × List (Effect Op) × Option String :=
  let c1 : Client Op := {c with revision := c.revision + 1}
  match c1.state with
  | .synchronized => (c1, [.apply operation], none)
  | .awaitingConfirm o =>
      let pair := T o operation
      ({c1 with state := .awaitingConfirm pair.1}, [.apply pair.2], none)
  | .awaitingWithBuffer o b =>
      let pair1 := T o operation
      let pair2 := T b pair1.2
      (c1, [.apply pair2.2],
       some ("ReferenceError: AwaitingWithBuffer is not defined"))

/-- Client.serverAck (src/lib/client.ts line 183): increments `revision`,
then dispatches.  In the Synchronized state the dispatch throws
"There is no pending operation."; the increment has already happened and
`setState` is never reached, so the returned client keeps the incremented
revision and the old state alongside the error. -/
def Client.serverAck (c : Client Op) : Client Op × List (Effect Op) × Option String :=
  let c1 : Client Op := {c with revision := c.revision + 1}
  match c1.state with
  | .synchronized => (c1, [], some ("There is no pending operation."))
  | .awaitingConfirm _ => ({c1 with state := .synchronized}, [], none)
  | .awaitingWithBuffer _ b =>
      ({c1 with state := .awaitingConfirm b}, [.send c1.revision b], none)

/-- Client.serverReconnect (src/lib/client.ts line 188) evaluates
`this.state?.resend(this)`.  The optional chain guards `state` (which is
never nullish), not the `resend` member; `SynchronizedState` declares no
`resend`, so in the Synchronized state the call evaluates
`undefined(this)` and throws a TypeError.  The two waiting states define
`resend`, which re-sends the outstanding operation at the current
revision and mutates nothing. -/
def Client.serverReconnect (c : Client Op) : List (Effect Op) × Option String :=
  match c.state with
  | .synchronized => ([], some ("TypeError: this.state.resend is not a function"))
  | .awaitingConfirm o => ([.send c.revision o], none)
  | .awaitingWithBuffer o _ => ([.send c.revision o], none)

/-- The `Server` object of src/lib/server.ts: the current document plus the
history of all accepted (already transformed) operations. -/
structure Server (Op Doc : Type) where
  document : Doc
  operations : List Op
deriving DecidableEq

/-- The transform loop of Server.receiveOperation (src/lib/server.ts lines
27 to 29): `operation = transform(operation, concurrentOperations[i])[0]`
for each history entry in order.  `T` is `TextOperation.transform`; it can
throw, so it returns in `Except`. -/
def transformLoop (T : Op → Op → Except String (Op × Op)) :
    Op → List Op → Except String Op
  | operation, [] => .ok operation
  | operation, h :: rest =>
    match T operation h with
    | .error e => .error e
    | .ok pair => transformLoop T pair.1 rest

/-- Server.receiveOperation (src/lib/server.ts line 16).  `A` is
`TextOperation.prototype.apply` (`A op doc` is `op.apply(doc)`); it can
throw.  The result carries the server as it stands after the call: the
revision check, the transform loop and the apply all throw before either
mutation (`this.document = ...`, `this.operations.push(...)`), so on any
error the server is returned unchanged. -/
def Server.receiveOperation (T : Op → Op → Except String (Op × Op))
    (A : Op → Doc → Except String Doc)
    (s : Server Op Doc) (revision : Int) (operation : Op) :
    Server Op Doc × Except String Op :=
  if revision < 0 ∨ (s.operations.length : Int) < revision then
    (s, .error ("operation revision not in history"))
  else
    match transformLoop T operation (s.operations.drop revision.toNat) with
    | .error e => (s, .error e)
    | .ok op2 =>
      match A op2 s.document with
      | .error e => (s, .error e)
      | .ok doc2 =>
        ({document := doc2, operations := s.operations ++ [op2]}, .ok op2)

/-- The mode of the UndoManager (src/unnamed/part_000, `UndoManagerState`). -/
inductive UMState where
  | normal
  | undoing
  | redoing
deriving DecidableEq

/-- The `UndoManager` object (src/unnamed/part_000 lines 21 to 27).  Stacks
are JavaScript arrays: index 0 is the bottom, `push` appends at the end,
`pop` removes the last element, `shift` removes the first. -/
structure UndoManager (Op : Type) where
  state : UMState
  dontCompose : Bool
  undoStack : List Op
  redoStack : List Op
  maxItems : Nat
deriving DecidableEq

/-- A freshly constructed UndoManager: normal mode, `dontCompose = false`,
both stacks empty. -/
def UndoManager.fresh (maxItems : Nat) : UndoManager Op :=
  ⟨.normal, false, [], [], maxItems⟩

/-- UndoManager.add (src/unnamed/part_000 lines 38 to 58).  `comp` is
`TextOperation.compose` (`comp a b` is `a.compose(b)`).  In normal mode,
when `!dontCompose && compose && undoStack.length > 0`, the top is popped
and `operation.compose(oldTop)` pushed in its place; otherwise the
operation is pushed and the stack shifted when it exceeds `maxItems`;
either way the redo stack is cleared and `dontCompose` reset. -/
def UndoManager.add (comp : Op → Op → Op) (m : UndoManager Op)
    (operation : Op) (compose : Bool) : UndoManager Op :=
  match m.state with
  | .undoing => {m with redoStack := m.redoStack ++ [operation], dontCompose := true}
  | .redoing => {m with undoStack := m.undoStack ++ [operation], dontCompose := true}
  | .normal =>
    let newUndo :=
      match (if !m.dontCompose && compose then m.undoStack.getLast? else none) with
      | some top => m.undoStack.dropLast ++ [comp operation top]
      | none =>
        let pushed := m.undoStack ++ [operation]
        if m.maxItems < pushed.length then pushed.tail else pushed
    {m with undoStack := newUndo, dontCompose := false, redoStack := []}

/-- The loop body of transformStack (src/unnamed/part_000 lines 5 to 11),
expressed over the stack already reversed into visit order (top first):
`pair = transform(stack[i], operation)`, keep `pair[0]` unless it is a
noop, continue with `operation = pair[1]`.  `N` is
`TextOperation.prototype.isNoop` (all TextOperation instances define it,
so the defensive `typeof` guard in the source never fires). -/
def transformStackLoop (T : Op → Op → Op × Op) (N : Op → Bool) :
    List Op → Op → List Op
  | [], _ => []
  | t :: rest, operation =>
    let pair := T t operation
    if N pair.1 then transformStackLoop T N rest pair.2
    else pair.1 :: transformStackLoop T N rest pair.2

/-- transformStack (src/unnamed/part_000 lines 3 to 13): iterate the stack
from its last element (the top) down to index 0, collect the surviving
transformed entries in visit order, and reverse the result. -/
def transformStack (T : Op → Op → Op × Op) (N : Op → Bool)
    (stack : List Op) (operation : Op) : List Op :=
  (transformStackLoop T N stack.reverse operation).reverse

/-- UndoManager.transform (src/unnamed/part_000 lines 64 to 67): rewrite
both stacks with `transformStack`. -/
def UndoManager.transform (T : Op → Op → Op × Op) (N : Op → Bool)
    (m : UndoManager Op) (operation : Op) : UndoManager Op :=
  {m with undoStack := transformStack T N m.undoStack operation,
          redoStack := transformStack T N m.redoStack operation}

/-- UndoManager.performUndo (src/unnamed/part_000 lines 74 to 81).  The
mode is set to undoing before the emptiness check: on an empty undo stack
the method throws "undo not possible" with the mode left at undoing.
Otherwise the top is popped, the callback runs (modelled as the single
documented `add` of `g top` with `compose = false`, which lands on the
redo stack because the mode is undoing) and the mode returns to normal. -/
def UndoManager.performUndo (comp : Op → Op → Op) (g : Op → Op)
    (m : UndoManager Op) : UndoManager Op × Option String :=
  let m1 : UndoManager Op := {m with state := .undoing}
  match m1.undoStack.getLast? with
  | none => (m1, some ("undo not possible"))
  | some top =>
    let m2 : UndoManager Op := {m1 with undoStack := m1.undoStack.dropLast}
    let m3 := UndoManager.add comp m2 (g top) false
    ({m3 with state := .normal}, none)

/-- UndoManager.performRedo (src/unnamed/part_000 lines 87 to 94), the
mirror image of performUndo. -/
def UndoManager.performRedo (comp : Op → Op → Op) (g : Op → Op)
    (m : UndoManager Op) : UndoManager Op × Option String :=
  let m1 : UndoManager Op := {m with state := .redoing}
  match m1.redoStack.getLast? with
  | none => (m1, some ("redo not possible"))
  | some top =>
    let m2 : UndoManager Op := {m1 with redoStack := m1.redoStack.dropLast}
    let m3 := UndoManager.add comp m2 (g top) false
    ({m3 with state := .normal}, none)

/-- One call into the UndoManager: a plain `add`, a `performUndo` or
`performRedo` whose callback adds `g` of the popped operation, or a
`transform` against a remote operation. -/
inductive UMEvent (Op : Type) where
  | add (operation : Op) (compose : Bool)
  | undo (g : Op → Op)
  | redo (g : Op → Op)
  | xform (operation : Op)

/-- The state reached by one event (errors thrown by performUndo /
performRedo propagate to the caller; the manager object persists as the
call left it). -/
def UMEvent.step (comp : Op → Op → Op) (T : Op → Op → Op × Op) (N : Op → Bool)
    (m : UndoManager Op) : UMEvent Op → UndoManager Op
  | .add operation compose => m.add comp operation compose
  | .undo g => (m.performUndo comp g).1
  | .redo g => (m.performRedo comp g).1
  | .xform operation => m.transform T N operation

/-- Run a sequence of UndoManager calls. -/
def UMrun (comp : Op → Op → Op) (T : Op → Op → Op × Op) (N : Op → Bool)
    (m : UndoManager Op) : List (UMEvent Op) → UndoManager Op
  | [] => m
  | e :: es => UMrun comp T N (UMEvent.step comp T N m e) es

/-- A sequence of calls is legal when every performUndo / performRedo is
invoked with the corresponding stack non-empty (so no call ever throws
and the manager is in normal mode between calls). -/
def legalEvents (comp : Op → Op → Op) (T : Op → Op → Op × Op) (N : Op → Bool)
    (m : UndoManager Op) : List (UMEvent Op) → Bool
  | [] => true
  | e :: es =>
    (match e with
     | .undo _ => !m.undoStack.isEmpty
     | .redo _ => !m.redoStack.isEmpty
     | _ => true) && legalEvents comp T N (UMEvent.step comp T N m e) es

/-- Modelled from the spec: a component of a TextOperation's `ops` array
(text-operation.ts is not among the sources).  On the wire a positive
integer is Retain, a string is Insert, a negative integer is Delete;
`Range.transform` dispatches on exactly these three shapes via
`TextOperation.isRetain` / `isInsert`. -/
inductive TOComp where
  | retain (n : Nat)
  | insert (s : String)
  | delete (n : Nat)
deriving DecidableEq

/-- The loop of `transformIndex` inside Range.transform
(src/unnamed/part_000 lines 152 to 171), walking the components with the
running `index` (remaining offset into the base document) and `newIndex`
(the transformed position, initialised to the original index): retain
subtracts from `index`; insert adds the string length to `newIndex`;
delete (a negative `op`, so `n = -op`) subtracts `min(index, n)` from
`newIndex` and `n` from `index`; after every component the loop breaks
once `index` has gone negative. -/
def transformIndexLoop : List TOComp → Int → Int → Int
  | [], _, newIndex => newIndex
  | c :: rest, index, newIndex =>
    match c with
    | .retain n =>
      let index2 := index - n
      if index2 < 0 then newIndex else transformIndexLoop rest index2 newIndex
    | .insert s =>
      let newIndex2 := newIndex + s.length
      if index < 0 then newIndex2 else transformIndexLoop rest index newIndex2
    | .delete n =>
      let newIndex2 := newIndex - min index (n : Int)
      let index2 := index - n
      if index2 < 0 then newIndex2 else transformIndexLoop rest index2 newIndex2

/-- transformIndex of Range.transform: both counters start at the index
being transformed. -/
def transformIndex (ops : List TOComp) (index : Int) : Int :=
  transformIndexLoop ops index index

/-- A `Range` (src/unnamed/part_000 lines 136 to 141): `anchor` and `head`
are zero-based indices into the document (kept as `Int` because the
transformed position arithmetic is signed in the source). -/
structure Range where
  anchor : Int
  head : Int
deriving DecidableEq

/-- Range.equals (src/unnamed/part_000 lines 143 to 145). -/
def Range.equalsB (r other : Range) : Bool :=
  r.anchor == other.anchor && r.head == other.head

/-- Range.transform (src/unnamed/part_000 lines 151 to 178), taking the
operation by its `ops` component list: when `anchor == head` the position
is computed once and used for both sides. -/
def Range.transform (r : Range) (ops : List TOComp) : Range :=
  let newAnchor := transformIndex ops r.anchor
  if r.anchor = r.head then ⟨newAnchor, newAnchor⟩
  else ⟨newAnchor, transformIndex ops r.head⟩

/-- A `Selection` (src/unnamed/part_000 line 186): an array of Ranges. -/
structure Selection where
  ranges : List Range
deriving DecidableEq

/-- Does `a` sort no later than `b` under the comparator of `sortRanges`
(src/unnamed/part_000 lines 251 to 257): lexicographic on
`(anchor, head)`. -/
def rangeLe (a b : Range) : Bool :=
  a.anchor < b.anchor || (a.anchor == b.anchor && a.head ≤ b.head)

/-- Insert a range into a list already sorted by `rangeLe`. -/
def insertRange (r : Range) : List Range → List Range
  | [] => [r]
  | x :: xs => if rangeLe r x then r :: x :: xs else x :: insertRange r xs

/-- sortRanges (src/unnamed/part_000 lines 251 to 257).  The source calls
`Array.prototype.sort`, which reorders the array in place; its comparator
returns -1 exactly on lexicographically smaller inputs and 1 otherwise,
which on value level yields the list sorted by `(anchor, head)` (ranges
with equal keys are equal values, so their relative order is
immaterial). -/
def sortRanges (ranges : List Range) : List Range :=
  ranges.foldr insertRange []

/-- The element-wise comparison loop of Selection.equals
(src/unnamed/part_000 lines 216 to 221). -/
def rangesEqAll : List Range → List Range → Bool
  | [], _ => true
  | _ :: _, [] => false
  | a :: as, b :: bs => Range.equalsB a b && rangesEqAll as bs

/-- Selection.equals (src/unnamed/part_000 lines 208 to 222).  The length
check returns early, before any sorting; otherwise both internal range
arrays are sorted in place by `sortRanges` (JavaScript `sort` mutates)
and compared element-wise.  The result carries the comparison outcome and
the two selections as the call leaves them. -/
def Selection.equals (s1 s2 : Selection) : Bool × Selection × Selection :=
  if s1.ranges.length ≠ s2.ranges.length then (false, s1, s2)
  else
    let sorted1 := sortRanges s1.ranges
    let sorted2 := sortRanges s2.ranges
    (rangesEqAll sorted1 sorted2, ⟨sorted1⟩, ⟨sorted2⟩)

/-- A concrete stand-in transform used to instantiate the parametric
theorems on small inputs. -/
def natT : Nat → Nat → Nat × Nat := fun a b => (a * 10 + b, b)

/-- A concrete stand-in compose for witnesses. -/
def natComp : Nat → Nat → Nat := fun a b => a * 100 + b

/-- A concrete stand-in isNoop for witnesses: 0 plays the noop. -/
def natNoop : Nat → Bool := fun n => n == 0

/-- A concrete fallible transform for server witnesses (always succeeds). -/
def natTE : Nat → Nat → Except String (Nat × Nat) := fun a b => .ok (a + b, b)

/-- A concrete fallible apply for server witnesses (always succeeds). -/
def natAE : Nat → Nat → Except String Nat := fun o d => .ok (o + d)

/-- A concrete apply that always throws, to exercise the error path. -/
def failApply : Nat → Nat → Except String Nat := fun _ _ => .error ("LengthMismatch")

/-- C1: contrary to the claim, applyServer in the AwaitingWithBuffer(o, b)
state never completes the transition.  It does compute
pair1 = transform(o, s) and pair2 = transform(b, pair1.2) and emit
applyOperation(pair2.2) as the claim describes, but line 132 then throws
a ReferenceError (`AwaitingWithBuffer` is undeclared; the class is
`AwaitingConfirmWithBuffer`), so the client comes out of the call with
the revision incremented and the state still AwaitingWithBuffer(o, b),
not AwaitingWithBuffer(pair1.1, pair2.1). -/
theorem claim1_buffer_applyServer_throws (T : Op → Op → Op × Op) (c : Client Op)
    (o b s : Op) (h : c.state = .awaitingWithBuffer o b) :
    Client.applyServer T c s =
      ({revision := c.revision + 1, state := .awaitingWithBuffer o b},
       [.apply (T b (T o s).2).2],
       some ("ReferenceError: AwaitingWithBuffer is not defined")) := by
  simp [Client.applyServer, h]

/-- Witness for C1 at a concrete client and transform: the apply effect
carries pair2.2, the revision advances, the state does not. -/
theorem claim1_witness :
    Client.applyServer natT (⟨7, .awaitingWithBuffer 1 2⟩ : Client Nat) 3 =
      (⟨8, .awaitingWithBuffer 1 2⟩, [.apply 3],
       some ("ReferenceError: AwaitingWithBuffer is not defined")) :=
  claim1_buffer_applyServer_throws natT ⟨7, .awaitingWithBuffer 1 2⟩ 1 2 3 rfl

/-- C2: contrary to the claim, serverReconnect is not a no-op in the
Synchronized state: `this.state?.resend(this)` invokes the undefined
`resend` member of SynchronizedState and throws a TypeError.  In the two
waiting states it does re-send the outstanding operation at the current
revision and mutates nothing. -/
theorem claim2_serverReconnect_behavior :
    Client.serverReconnect (⟨5, .synchronized⟩ : Client Nat) =
      ([], some ("TypeError: this.state.resend is not a function")) ∧
    Client.serverReconnect (⟨5, .awaitingConfirm 3⟩ : Client Nat) =
      ([.send 5 3], none) ∧
    Client.serverReconnect (⟨5, .awaitingWithBuffer 3 4⟩ : Client Nat) =
      ([.send 5 3], none) :=
  ⟨rfl, rfl, rfl⟩

/-- C9: serverAck in the Synchronized state throws
"There is no pending operation.", but the revision counter was
incremented before the dispatch and is not rolled back: the client comes
out of the failed call with revision + 1 and an unchanged state. -/
theorem claim9_serverAck_synchronized (c : Client Op) (h : c.state = .synchronized) :
    Client.serverAck c =
      ({revision := c.revision + 1, state := .synchronized}, [],
       some ("There is no pending operation.")) := by
  simp [Client.serverAck, h]

/-- Witness for C9 at a concrete client. -/
theorem claim9_witness :
    Client.serverAck (⟨2, .synchronized⟩ : Client Nat) =
      (⟨3, .synchronized⟩, [], some ("There is no pending operation."))  :=
  claim9_serverAck_synchronized ⟨2, .synchronized⟩ rfl

/-- C3: receiveOperation(revision, op) fails with the revision-out-of-range
error when revision < 0 or revision > operations.length, and otherwise
folds op through transform against operations[revision..] in order
(first component of each pair), applies the result to the document,
appends it to the history and returns it. -/
theorem claim3_receiveOperation (T : Op → Op → Except String (Op × Op))
    (A : Op → Doc → Except String Doc) (s : Server Op Doc) (rev : Int)
    (operation : Op) :
    (rev < 0 ∨ (s.operations.length : Int) < rev →
      Server.receiveOperation T A s rev operation =
        (s, .error ("operation revision not in history"))) ∧
    (∀ op2 doc2, 0 ≤ rev → rev ≤ (s.operations.length : Int) →
      transformLoop T operation (s.operations.drop rev.toNat) = .ok op2 →
      A op2 s.document = .ok doc2 →
      Server.receiveOperation T A s rev operation =
        ({document := doc2, operations := s.operations ++ [op2]}, .ok op2)) := by
  constructor
  · intro h
    simp [Server.receiveOperation, h]
  · intro op2 doc2 h0 h1 ht ha
    have hcond : ¬(rev < 0 ∨ (s.operations.length : Int) < rev) := by
      push_neg
      exact ⟨by omega, by omega⟩
    simp [Server.receiveOperation, hcond, ht, ha]

/-- Witness for C3: both the out-of-range branch and the success branch at
a concrete server. -/
theorem claim3_witness :
    Server.receiveOperation natTE natAE (⟨100, [7]⟩ : Server Nat Nat) (-1) 5 =
      ((⟨100, [7]⟩ : Server Nat Nat), .error ("operation revision not in history")) ∧
    Server.receiveOperation natTE natAE (⟨100, [7]⟩ : Server Nat Nat) 0 5 =
      ((⟨112, [7, 12]⟩ : Server Nat Nat), .ok 12) :=
  ⟨(claim3_receiveOperation natTE natAE ⟨100, [7]⟩ (-1) 5).1 (Or.inl (by decide)),
   (claim3_receiveOperation natTE natAE ⟨100, [7]⟩ 0 5).2 12 112
     (by decide) (by decide) rfl rfl⟩

/-- C10: whenever receiveOperation returns an error (range check,
transform, or apply), the server is unchanged: document reassignment and
the history append happen only after apply has succeeded. -/
theorem claim10_error_frame (T : Op → Op → Except String (Op × Op))
    (A : Op → Doc → Except String Doc) (s s2 : Server Op Doc) (rev : Int)
    (operation : Op) (e : String)
    (h : Server.receiveOperation T A s rev operation = (s2, .error e)) :
    s2 = s := by
  unfold Server.receiveOperation at h
  split at h
  · exact (congrArg Prod.fst h).symm
  · split at h
    · exact (congrArg Prod.fst h).symm
    · split at h
      · exact (congrArg Prod.fst h).symm
      · exact absurd (congrArg Prod.snd h) (by simp)

/-- Witness for C10: a concrete call where apply throws; the returned
server equals the original. -/
theorem claim10_witness :
    Server.receiveOperation natTE failApply (⟨100, []⟩ : Server Nat Nat) 0 5 =
      ((⟨100, []⟩ : Server Nat Nat), .error ("LengthMismatch")) ∧
    (⟨100, []⟩ : Server Nat Nat) = ⟨100, []⟩ :=
  ⟨rfl, claim10_error_frame natTE failApply ⟨100, []⟩ ⟨100, []⟩ 0 5
    ("LengthMismatch") rfl⟩

/-- C5: UndoManager.add pushes onto the redo stack (setting dontCompose)
in undoing mode, onto the undo stack (setting dontCompose) in redoing
mode; in normal mode it composes `op.compose(top)` onto the popped top
exactly when dontCompose is unset, compose is requested and the stack is
non-empty, pushes (with the maxItems trim) otherwise, and in either
normal branch clears the redo stack and resets dontCompose, so a set
dontCompose flag blocks composition for exactly one subsequent
normal-mode add. -/
theorem claim5_add (comp : Op → Op → Op) (m : UndoManager Op)
    (operation : Op) (c : Bool) :
    (m.state = .undoing →
      m.add comp operation c =
        {m with redoStack := m.redoStack ++ [operation], dontCompose := true}) ∧
    (m.state = .redoing →
      m.add comp operation c =
        {m with undoStack := m.undoStack ++ [operation], dontCompose := true}) ∧
    (∀ xs top, m.state = .normal → m.dontCompose = false → c = true →
      m.undoStack = xs ++ [top] →
      m.add comp operation c =
        {m with undoStack := xs ++ [comp operation top],
                dontCompose := false, redoStack := []}) ∧
    (m.state = .normal → (m.dontCompose = true ∨ c = false ∨ m.undoStack = []) →
      m.add comp operation c =
        {m with
          undoStack :=
            if m.maxItems < (m.undoStack ++ [operation]).length
            then (m.undoStack ++ [operation]).tail else m.undoStack ++ [operation],
          dontCompose := false, redoStack := []}) ∧
    (m.state = .normal → (m.add comp operation c).dontCompose = false) := by
  refine ⟨fun h => ?_, fun h => ?_, fun xs top h hd hc hu => ?_, fun h hside => ?_,
    fun h => ?_⟩
  · simp [UndoManager.add, h]
  · simp [UndoManager.add, h]
  · simp [UndoManager.add, h, hd, hc, hu]
  · rcases hside with hd | hc | hu
    · simp [UndoManager.add, h, hd]
    · simp [UndoManager.add, h, hc]
    · simp [UndoManager.add, h, hu]
  · rcases hm : (if !m.dontCompose && c then m.undoStack.getLast? else none) with _ | top
    · simp [UndoManager.add, h, hm]
    · simp [UndoManager.add, h, hm]

/-- Witness for C5: each branch of add at a concrete manager. -/
theorem claim5_witness :
    UndoManager.add natComp (⟨.undoing, false, [1], [2], 9⟩ : UndoManager Nat) 8 false =
      ⟨.undoing, true, [1], [2, 8], 9⟩ ∧
    UndoManager.add natComp (⟨.redoing, false, [1], [2], 9⟩ : UndoManager Nat) 8 false =
      ⟨.redoing, true, [1, 8], [2], 9⟩ ∧
    UndoManager.add natComp (⟨.normal, false, [1, 2], [4], 9⟩ : UndoManager Nat) 8 true =
      ⟨.normal, false, [1, 802], [], 9⟩ ∧
    UndoManager.add natComp (⟨.normal, true, [1, 2], [4], 9⟩ : UndoManager Nat) 8 true =
      ⟨.normal, false, [1, 2, 8], [], 9⟩ ∧
    (UndoManager.add natComp (⟨.normal, true, [1, 2], [4], 9⟩ : UndoManager Nat) 8 true).dontCompose
      = false := by
  refine ⟨(claim5_add natComp _ 8 false).1 rfl, (claim5_add natComp _ 8 false).2.1 rfl,
    ?_, ?_, (claim5_add natComp ⟨.normal, true, [1, 2], [4], 9⟩ 8 true).2.2.2.2 rfl⟩
  · exact (claim5_add natComp ⟨.normal, false, [1, 2], [4], 9⟩ 8 true).2.2.1
      [1] 2 rfl rfl rfl rfl
  · exact (claim5_add natComp ⟨.normal, true, [1, 2], [4], 9⟩ 8 true).2.2.2.1 rfl
      (Or.inl rfl)

/-- C6: transformStack visits the stack from top (last element) to bottom,
transforms each entry against the running operation with the entry as the
first argument, carries the second pair component to the next iteration,
drops entries whose transformed form is a noop, and restores the original
order; UndoManager.transform rewrites both stacks this way. -/
theorem claim6_transformStack (T : Op → Op → Op × Op) (N : Op → Bool) :
    (∀ operation : Op, transformStack T N [] operation = []) ∧
    (∀ (xs : List Op) (t operation : Op),
      transformStack T N (xs ++ [t]) operation =
        transformStack T N xs (T t operation).2 ++
          (if N (T t operation).1 then [] else [(T t operation).1])) ∧
    (∀ (m : UndoManager Op) (operation : Op),
      m.transform T N operation =
        {m with undoStack := transformStack T N m.undoStack operation,
                redoStack := transformStack T N m.redoStack operation}) := by
  refine ⟨fun operation => rfl, fun xs t operation => ?_, fun m operation => rfl⟩
  by_cases hN : N (T t operation).1
  · simp [transformStack, transformStackLoop, hN]
  · simp [transformStack, transformStackLoop, hN]

/-- C7: the index walk of Range.transform satisfies, per component: retain
subtracts from the remaining index; insert adds the string length to the
new position; delete subtracts `min(remaining, n)` from the new position
and n from the remaining index; the walk stops as soon as the remaining
index is negative; and a range with anchor = head is transformed by
computing the position once, so a cursor stays a cursor. -/
theorem claim7_range_transform :
    (∀ (rest : List TOComp) (n : Nat) (index newIndex : Int),
      transformIndexLoop (.retain n :: rest) index newIndex =
        if index - n < 0 then newIndex
        else transformIndexLoop rest (index - n) newIndex) ∧
    (∀ (rest : List TOComp) (s : String) (index newIndex : Int),
      transformIndexLoop (.insert s :: rest) index newIndex =
        if index < 0 then newIndex + s.length
        else transformIndexLoop rest index (newIndex + s.length)) ∧
    (∀ (rest : List TOComp) (n : Nat) (index newIndex : Int),
      transformIndexLoop (.delete n :: rest) index newIndex =
        if index - n < 0 then newIndex - min index n
        else transformIndexLoop rest (index - n) (newIndex - min index n)) ∧
    (∀ (ops : List TOComp) (index : Int),
      transformIndex ops index = transformIndexLoop ops index index) ∧
    (∀ (ops : List TOComp) (a : Int),
      Range.transform ⟨a, a⟩ ops =
        ⟨transformIndex ops a, transformIndex ops a⟩) ∧
    (∀ (ops : List TOComp) (a h : Int), a ≠ h →
      Range.transform ⟨a, h⟩ ops =
        ⟨transformIndex ops a, transformIndex ops h⟩) := by
  refine ⟨fun rest n index newIndex => rfl, fun rest s index newIndex => rfl,
    fun rest n index newIndex => rfl, fun ops index => rfl,
    fun ops a => by simp [Range.transform], fun ops a h hne => ?_⟩
  simp [Range.transform, hne]

/-- Witness for C7: the cursor case and a genuine range at a concrete
operation (insert "ab" at the front, then retain 2, delete 3). -/
theorem claim7_witness :
    (3 : Int) ≠ 6 ∧
    Range.transform ⟨3, 6⟩ [.insert ("ab"), .retain 2, .delete 3] =
      ⟨transformIndex [.insert ("ab"), .retain 2, .delete 3] 3,
       transformIndex [.insert ("ab"), .retain 2, .delete 3] 6⟩ :=
  ⟨by decide,
   claim7_range_transform.2.2.2.2.2 [.insert ("ab"), .retain 2, .delete 3] 3 6
     (by decide)⟩

lemma transformStackLoop_length_le (T : Op → Op → Op × Op) (N : Op → Bool)
    (l : List Op) : ∀ operation, (transformStackLoop T N l operation).length ≤ l.length := by
  induction l with
  | nil => intro operation; simp [transformStackLoop]
  | cons t rest ih =>
    intro operation
    simp only [transformStackLoop]
    split
    · exact le_trans (ih _) (Nat.le_succ _)
    · simpa using ih _

lemma transformStack_length_le (T : Op → Op → Op × Op) (N : Op → Bool)
    (stack : List Op) (operation : Op) :
    (transformStack T N stack operation).length ≤ stack.length := by
  simpa [transformStack] using transformStackLoop_length_le T N stack.reverse operation

lemma add_normal_compose_eq (comp : Op → Op → Op) (m : UndoManager Op)
    (operation : Op) (c : Bool) (top : Op) (h1 : m.state = .normal)
    (hu : (if !m.dontCompose && c then m.undoStack.getLast? else none) = some top) :
    m.add comp operation c =
      {m with undoStack := m.undoStack.dropLast ++ [comp operation top],
              dontCompose := false, redoStack := []} := by
  simp only [UndoManager.add, h1, hu]

lemma add_normal_push_eq (comp : Op → Op → Op) (m : UndoManager Op)
    (operation : Op) (c : Bool) (h1 : m.state = .normal)
    (hu : (if !m.dontCompose && c then m.undoStack.getLast? else none) = none) :
    m.add comp operation c =
      {m with
        undoStack :=
          if m.maxItems < (m.undoStack ++ [operation]).length
          then (m.undoStack ++ [operation]).tail else m.undoStack ++ [operation],
        dontCompose := false, redoStack := []} := by
  simp only [UndoManager.add, h1, hu]

lemma add_invariant (comp : Op → Op → Op) (m : UndoManager Op) (operation : Op)
    (c : Bool) (h1 : m.state = .normal)
    (h2 : m.undoStack.length + m.redoStack.length ≤ m.maxItems) :
    (m.add comp operation c).state = .normal ∧
    (m.add comp operation c).maxItems = m.maxItems ∧
    (m.add comp operation c).undoStack.length +
      (m.add comp operation c).redoStack.length ≤ m.maxItems := by
  cases hu : (if !m.dontCompose && c then m.undoStack.getLast? else none) with
  | none =>
    rw [add_normal_push_eq comp m operation c h1 hu]
    refine ⟨h1, rfl, ?_⟩
    simp only [List.length_nil, Nat.add_zero]
    split
    · rename_i hlt
      simp only [List.length_append, List.length_cons, List.length_nil,
        List.length_tail] at hlt ⊢
      omega
    · rename_i hle
      simp only [List.length_append, List.length_cons, List.length_nil,
        not_lt] at hle ⊢
      omega
  | some top =>
    have hne : m.undoStack ≠ [] := by
      intro hnil
      by_cases hdc : (!m.dontCompose && c) = true
      · rw [if_pos hdc, hnil] at hu
        simp at hu
      · rw [if_neg hdc] at hu
        simp at hu
    have hlen : 1 ≤ m.undoStack.length := by
      cases hul : m.undoStack with
      | nil => exact absurd hul hne
      | cons a as => simp
    rw [add_normal_compose_eq comp m operation c top h1 hu]
    refine ⟨h1, rfl, ?_⟩
    simp only [List.length_nil, Nat.add_zero, List.length_append,
      List.length_dropLast, List.length_cons]
    omega

lemma performUndo_concat (comp : Op → Op → Op) (g : Op → Op) (m : UndoManager Op)
    (L : List Op) (b : Op) (hL : m.undoStack = L ++ [b]) :
    m.performUndo comp g =
      (⟨.normal, true, L, m.redoStack ++ [g b], m.maxItems⟩, none) := by
  simp [UndoManager.performUndo, UndoManager.add, hL]

lemma performRedo_concat (comp : Op → Op → Op) (g : Op → Op) (m : UndoManager Op)
    (L : List Op) (b : Op) (hL : m.redoStack = L ++ [b]) :
    m.performRedo comp g =
      (⟨.normal, true, m.undoStack ++ [g b], L, m.maxItems⟩, none) := by
  simp [UndoManager.performRedo, UndoManager.add, hL]

lemma run_invariant (comp : Op → Op → Op) (T : Op → Op → Op × Op) (N : Op → Bool)
    (es : List (UMEvent Op)) :
    ∀ m : UndoManager Op, m.state = .normal →
      m.undoStack.length + m.redoStack.length ≤ m.maxItems →
      legalEvents comp T N m es = true →
      (UMrun comp T N m es).state = .normal ∧
      (UMrun comp T N m es).maxItems = m.maxItems ∧
      (UMrun comp T N m es).undoStack.length +
        (UMrun comp T N m es).redoStack.length ≤ m.maxItems := by
  induction es with
  | nil =>
    intro m h1 h2 _
    exact ⟨h1, rfl, h2⟩
  | cons e es ih =>
    intro m h1 h2 hleg
    simp only [legalEvents, Bool.and_eq_true] at hleg
    obtain ⟨hg, hrest⟩ := hleg
    have hstep : (UMEvent.step comp T N m e).state = .normal ∧
        (UMEvent.step comp T N m e).maxItems = m.maxItems ∧
        (UMEvent.step comp T N m e).undoStack.length +
          (UMEvent.step comp T N m e).redoStack.length ≤ m.maxItems := by
      cases e with
      | add operation c =>
        simpa only [UMEvent.step] using add_invariant comp m operation c h1 h2
      | undo g =>
        have hne : m.undoStack ≠ [] := by simpa using hg
        obtain ⟨L, b, hL⟩ : ∃ L b, m.undoStack = L ++ [b] := by
          rcases List.eq_nil_or_concat m.undoStack with h | h
          · exact absurd h hne
          · simpa only [List.concat_eq_append] using h
        have hstepEq : UMEvent.step comp T N m (.undo g) =
            ⟨.normal, true, L, m.redoStack ++ [g b], m.maxItems⟩ := by
          simp only [UMEvent.step, performUndo_concat comp g m L b hL]
        rw [hstepEq]
        refine ⟨rfl, rfl, ?_⟩
        rw [hL] at h2
        simp only [List.length_append, List.length_cons, List.length_nil] at h2 ⊢
        omega
      | redo g =>
        have hne : m.redoStack ≠ [] := by simpa using hg
        obtain ⟨L, b, hL⟩ : ∃ L b, m.redoStack = L ++ [b] := by
          rcases List.eq_nil_or_concat m.redoStack with h | h
          · exact absurd h hne
          · simpa only [List.concat_eq_append] using h
        have hstepEq : UMEvent.step comp T N m (.redo g) =
            ⟨.normal, true, m.undoStack ++ [g b], L, m.maxItems⟩ := by
          simp only [UMEvent.step, performRedo_concat comp g m L b hL]
        rw [hstepEq]
        refine ⟨rfl, rfl, ?_⟩
        rw [hL] at h2
        simp only [List.length_append, List.length_cons, List.length_nil] at h2 ⊢
        omega
      | xform operation =>
        refine ⟨h1, rfl, ?_⟩
        have hu := transformStack_length_le T N m.undoStack operation
        have hr := transformStack_length_le T N m.redoStack operation
        simp only [UMEvent.step, UndoManager.transform]
        omega
    obtain ⟨s1, s2, s3⟩ := hstep
    have hmain := ih (UMEvent.step comp T N m e) s1 (by rw [s2]; exact s3) hrest
    refine ⟨by simpa [UMrun] using hmain.1, ?_, ?_⟩
    · show (UMrun comp T N (UMEvent.step comp T N m e) es).maxItems = m.maxItems
      rw [hmain.2.1, s2]
    · show (UMrun comp T N (UMEvent.step comp T N m e) es).undoStack.length +
        (UMrun comp T N (UMEvent.step comp T N m e) es).redoStack.length ≤ m.maxItems
      rw [← s2]
      exact hmain.2.2

/-- C4 counterexample: a performUndo on an empty undo stack throws after
the mode was already set to undoing, and the mode is never reset; the two
following adds therefore land on the redo stack, which is never trimmed,
so with maxItems = 1 the redo stack reaches 2 entries. -/
theorem claim4_cex :
    ¬((UMrun natComp natT natNoop (UndoManager.fresh 1)
        [.undo id, .add 5 false, .add 6 false]).redoStack.length ≤
      (UMrun natComp natT natNoop (UndoManager.fresh 1)
        [.undo id, .add 5 false, .add 6 false]).maxItems) := by
  decide

/-- C4 (amended): for every sequence of UndoManager calls in which
performUndo and performRedo are only invoked with the corresponding stack
non-empty (so no call throws and the manager is in normal mode between
calls), the undo and redo stacks each hold at most maxItems entries; and
a normal-mode non-composing push onto a full undo stack drops the oldest
entry. -/
theorem claim4_bounds (comp : Op → Op → Op) (T : Op → Op → Op × Op) (N : Op → Bool)
    (maxItems : Nat) (es : List (UMEvent Op))
    (hleg : legalEvents comp T N (UndoManager.fresh maxItems) es = true) :
    ((UMrun comp T N (UndoManager.fresh maxItems) es).undoStack.length ≤ maxItems ∧
     (UMrun comp T N (UndoManager.fresh maxItems) es).redoStack.length ≤ maxItems) ∧
    (∀ (m : UndoManager Op) (operation : Op) (c : Bool),
      m.state = .normal → (m.dontCompose = true ∨ c = false) →
      m.undoStack.length = m.maxItems → m.undoStack ≠ [] →
      (m.add comp operation c).undoStack = m.undoStack.tail ++ [operation]) := by
  constructor
  · have h := run_invariant comp T N es (UndoManager.fresh maxItems) rfl
      (by simp [UndoManager.fresh]) hleg
    exact ⟨le_trans (Nat.le_add_right _ _) h.2.2,
      le_trans (Nat.le_add_left _ _) h.2.2⟩
  · intro m operation c h1 hside hlen hne
    have hb : (!m.dontCompose && c) = false := by
      rcases hside with h | h <;> simp [h]
    have hgt : m.maxItems < (m.undoStack ++ [operation]).length := by
      simp only [List.length_append, List.length_cons, List.length_nil]
      omega
    simp only [UndoManager.add, h1, hb]
    rw [if_pos hgt]
    cases hu : m.undoStack with
    | nil => exact absurd hu hne
    | cons a as => simp

/-- Witness for C4: a legal sequence (three adds with an overflow, then an
undo) stays within the bound, and a push onto a full undo stack drops the
oldest entry. -/
theorem claim4_witness :
    legalEvents natComp natT natNoop (UndoManager.fresh 2)
      [.add 1 false, .add 2 false, .add 3 false, .undo id] = true ∧
    ((UMrun natComp natT natNoop (UndoManager.fresh 2)
        [.add 1 false, .add 2 false, .add 3 false, .undo id]).undoStack.length ≤ 2 ∧
     (UMrun natComp natT natNoop (UndoManager.fresh 2)
        [.add 1 false, .add 2 false, .add 3 false, .undo id]).redoStack.length ≤ 2) ∧
    (UndoManager.add natComp (⟨.normal, false, [5, 6], [], 2⟩ : UndoManager Nat)
      9 false).undoStack = [6, 9] := by
  refine ⟨rfl, (claim4_bounds natComp natT natNoop 2
    [.add 1 false, .add 2 false, .add 3 false, .undo id] rfl).1, ?_⟩
  exact (claim4_bounds natComp natT natNoop 2 [] rfl).2
    ⟨.normal, false, [5, 6], [], 2⟩ 9 false rfl (Or.inr rfl) rfl (by decide)

lemma insertRange_perm (r : Range) (l : List Range) :
    (insertRange r l).Perm (r :: l) := by
  induction l with
  | nil => simp [insertRange]
  | cons x xs ih =>
    simp only [insertRange]
    split
    · exact List.Perm.refl _
    · exact (ih.cons x).trans (List.Perm.swap r x xs)

lemma sortRanges_perm (l : List Range) : (sortRanges l).Perm l := by
  induction l with
  | nil => simp [sortRanges]
  | cons x xs ih =>
    simp only [sortRanges, List.foldr_cons]
    exact (insertRange_perm x _).trans (ih.cons x)

/-- C8 counterexample: two equal selections whose range lists are not
already sorted compare equal, but the call hands back the first selection
with its internal list reordered (JavaScript `Array.prototype.sort`
mutates in place), contradicting the no-mutation part of the claim. -/
theorem claim8_cex :
    (Selection.equals ⟨[⟨1, 1⟩, ⟨0, 0⟩]⟩ ⟨[⟨1, 1⟩, ⟨0, 0⟩]⟩).1 = true ∧
    (Selection.equals ⟨[⟨1, 1⟩, ⟨0, 0⟩]⟩ ⟨[⟨1, 1⟩, ⟨0, 0⟩]⟩).2.1 ≠
      (⟨[⟨1, 1⟩, ⟨0, 0⟩]⟩ : Selection) := by
  decide

/-- C8 (amended): Selection.equals compares the two range lists
element-wise after sorting them by (anchor, head) lexicographic order
(returning false early, without sorting, when the lengths differ), but
the sort is in place: after a call on equal-length selections each
selection holds the sorted permutation of its former ranges rather than
the original list. -/
theorem claim8_equals (s1 s2 : Selection) :
    (s1.ranges.length ≠ s2.ranges.length →
      Selection.equals s1 s2 = (false, s1, s2)) ∧
    (s1.ranges.length = s2.ranges.length →
      Selection.equals s1 s2 =
        (rangesEqAll (sortRanges s1.ranges) (sortRanges s2.ranges),
         ⟨sortRanges s1.ranges⟩, ⟨sortRanges s2.ranges⟩)) ∧
    ((Selection.equals s1 s2).2.1.ranges.Perm s1.ranges ∧
     (Selection.equals s1 s2).2.2.ranges.Perm s2.ranges) := by
  refine ⟨fun h => ?_, fun h => ?_, ?_⟩
  · simp [Selection.equals, h]
  · simp [Selection.equals, h]
  · by_cases h : s1.ranges.length = s2.ranges.length
    · simp only [Selection.equals, h, ne_eq, not_true_eq_false, if_false]
      exact ⟨sortRanges_perm _, sortRanges_perm _⟩
    · simp only [Selection.equals, h, ne_eq, not_false_eq_true, if_true]
      exact ⟨List.Perm.refl _, List.Perm.refl _⟩

/-- Witness for C8 (amended): the early-return branch, the sorting branch,
and the permutation fact at concrete selections. -/
theorem claim8_witness :
    Selection.equals ⟨[⟨0, 0⟩]⟩ ⟨[⟨0, 0⟩, ⟨1, 1⟩]⟩ =
      (false, ⟨[⟨0, 0⟩]⟩, ⟨[⟨0, 0⟩, ⟨1, 1⟩]⟩) ∧
    Selection.equals ⟨[⟨1, 1⟩, ⟨0, 0⟩]⟩ ⟨[⟨0, 0⟩, ⟨1, 1⟩]⟩ =
      (rangesEqAll (sortRanges [⟨1, 1⟩, ⟨0, 0⟩]) (sortRanges [⟨0, 0⟩, ⟨1, 1⟩]),
       ⟨sortRanges [⟨1, 1⟩, ⟨0, 0⟩]⟩, ⟨sortRanges [⟨0, 0⟩, ⟨1, 1⟩]⟩) ∧
    (Selection.equals ⟨[⟨1, 1⟩, ⟨0, 0⟩]⟩ ⟨[⟨0, 0⟩, ⟨1, 1⟩]⟩).2.1.ranges.Perm
      [⟨1, 1⟩, ⟨0, 0⟩] :=
  ⟨(claim8_equals ⟨[⟨0, 0⟩]⟩ ⟨[⟨0, 0⟩, ⟨1, 1⟩]⟩).1 (by decide),
   (claim8_equals ⟨[⟨1, 1⟩, ⟨0, 0⟩]⟩ ⟨[⟨0, 0⟩, ⟨1, 1⟩]⟩).2.1 rfl,
   (claim8_equals ⟨[⟨1, 1⟩, ⟨0, 0⟩]⟩ ⟨[⟨0, 0⟩, ⟨1, 1⟩]⟩).2.2.1⟩

end OT
